import Mathlib

/-!
Shallow embedding of the pacman-AI repository (src/ppo.py and src/agent.py)
and verification of the frozen claims about it.

Numeric modelling: Python floats are modelled as exact rationals (`ℚ`) for the
purely algebraic parts (rewards-to-go, rollout bookkeeping, replay memory) and
as reals (`ℝ`) where the code applies `exp` / `sqrt` (PPO losses, advantage
normalization).
-/

/-- `PPO.compute_rtgs` (src/ppo.py lines 208-223): iterate the episodes of
`batch_rews` in reverse; within an episode iterate the rewards in reverse,
maintaining `discounted_reward = rew + discounted_reward * gamma`, inserting
each value at the front of the accumulated `batch_rtgs` list. -/
def compute_rtgs (gamma : ℚ) (batch_rews : List (List ℚ)) : List ℚ :=
  batch_rews.reverse.foldl
    (fun batch_rtgs ep_rews =>
      (ep_rews.reverse.foldl
        (fun p rew =>
          let d := rew + p.1 * gamma
          (d, d :: p.2))
        ((0 : ℚ), batch_rtgs)).2)
    []

/-- Proof-side closed form of the single-episode rewards-to-go list, in
forward order: `g_i = r_i + g_{i+1} * gamma`, with `g` of the empty suffix
read as `0`. -/
def rtgList (gamma : ℚ) : List ℚ → List ℚ
  | [] => []
  | r :: rest => (r + (rtgList gamma rest).headD 0 * gamma) :: rtgList gamma rest

/-! ## Rollout model (src/ppo.py lines 118-186)

The environment/policy interaction of one episode is abstracted as a trace:
the while-loop at lines 139-166 always runs at least one iteration (since
`done` starts false), and each iteration collects one observation, samples one
action with its log-probability, and receives one reward. An `Episode` is the
nonempty list of these per-iteration records; the environment is a stream of
episodes indexed by the order in which `env.reset()` is called. -/

/-- Data collected during one iteration of the inner while loop of
`PPO.rollout`: the observation appended to `batch_obs` (line 145), the action
and log-probability appended at lines 165-166, and the reward appended to
`ep_rews` at line 164. -/
structure StepData where
  obs : ℚ
  act : ℚ
  logp : ℚ
  rew : ℚ

/-- One terminating episode: a nonempty sequence of steps (head plus tail),
the last of which is the step on which the environment signalled `done`. -/
structure Episode where
  hd : StepData
  tl : List StepData

/-- The steps of an episode, in order. -/
def Episode.steps (e : Episode) : List StepData := e.hd :: e.tl

/-- Mutable state of the inner while loop of `PPO.rollout`:
`ep_t`, `t`, and the growing `batch_obs`, `batch_acts`, `batch_log_probs`,
`ep_rews` lists. -/
structure EpRun where
  ep_t : Nat
  t : Nat
  obs : List ℚ
  acts : List ℚ
  logps : List ℚ
  ep_rews : List ℚ

/-- The inner `while (not done)` loop of `PPO.rollout` (lines 139-166): one
iteration per step, incrementing `ep_t` and `t` and appending the step's
data to the accumulators. -/
def runSteps : List StepData → EpRun → EpRun
  | [], st => st
  | s :: rest, st =>
      runSteps rest
        { ep_t := st.ep_t + 1, t := st.t + 1,
          obs := st.obs ++ [s.obs], acts := st.acts ++ [s.act],
          logps := st.logps ++ [s.logp], ep_rews := st.ep_rews ++ [s.rew] }

/-- The tuple returned by `PPO.rollout` (line 186). -/
structure Batch where
  batch_obs : List ℚ
  batch_acts : List ℚ
  batch_log_probs : List ℚ
  batch_rews : List (List ℚ)
  batch_rtgs : List ℚ
  batch_lens : List Nat

/-- `self.gamma` (src/ppo.py line 110). -/
def gammaHP : ℚ := 0.95

/-- `self.timesteps_per_batch` (src/ppo.py line 108). -/
def timesteps_per_batchHP : Nat := 10000

/-- `self.n_updates_per_iteration` (src/ppo.py line 111). -/
def n_updates_per_iterationHP : Nat := 5

/-- The outer `while t < self.timesteps_per_batch` loop of `PPO.rollout`
(lines 130-175) followed by the final packaging (lines 177-186): while the
accumulated timestep count is below the target, run one full episode (resetting
`ep_t` to 0 and `ep_rews` to `[]`), then append that episode's reward list and
`ep_t + 1` (the source's line 174, comment and all) to `batch_rews` and
`batch_lens`. -/
def rolloutAux (env : Nat → Episode) (target : Nat) (i t : Nat)
    (obs acts logps : List ℚ) (rews : List (List ℚ)) (lens : List Nat) : Batch :=
  if t < target then
    let r := runSteps (env i).steps
      { ep_t := 0, t := t, obs := obs, acts := acts, logps := logps, ep_rews := [] }
    rolloutAux env target (i + 1) r.t r.obs r.acts r.logps
      (rews ++ [r.ep_rews]) (lens ++ [r.ep_t + 1])
  else
    { batch_obs := obs, batch_acts := acts, batch_log_probs := logps,
      batch_rews := rews, batch_rtgs := compute_rtgs gammaHP rews, batch_lens := lens }
termination_by target - t
decreasing_by
  have key : ∀ (steps : List StepData) (st : EpRun), (runSteps steps st).t = st.t + steps.length := by
    intro steps
    induction steps with
    | nil => intro st; simp [runSteps]
    | cons s rest ih => intro st; simp [runSteps, ih]; omega
  have hlen : (env i).steps.length = (env i).tl.length + 1 := rfl
  simp only [key]
  omega

/-- `PPO.rollout` itself: start with `t = 0`, empty accumulators, and the
episode stream positioned at its beginning. -/
def rollout (env : Nat → Episode) (target : Nat) : Batch :=
  rolloutAux env target 0 0 [] [] [] [] []

/-- Number of episodes the rollout loop consumes from episode index `i`
onward, starting at timestep count `t`. -/
def epCount (env : Nat → Episode) (target : Nat) (i t : Nat) : Nat :=
  if t < target then epCount env target (i + 1) (t + (env i).steps.length) + 1 else 0
termination_by target - t
decreasing_by
  have hlen : (env i).steps.length = (env i).tl.length + 1 := rfl
  omega

/-- The flat list of steps of episodes `i, i+1, ..., i+k-1`. -/
def segSteps (env : Nat → Episode) (i k : Nat) : List StepData :=
  ((List.range' i k).map (fun j => (env j).steps)).flatten

/-- Total number of timesteps in episodes `i, ..., i+k-1`. -/
def segLen (env : Nat → Episode) (i k : Nat) : Nat := (segSteps env i k).length

/-- The per-episode reward lists of episodes `i, ..., i+k-1`. -/
def rewsSeg (env : Nat → Episode) (i k : Nat) : List (List ℚ) :=
  (List.range' i k).map (fun j => (env j).steps.map StepData.rew)

/-- The `batch_lens` entries recorded for episodes `i, ..., i+k-1`
(each is the episode's step count plus one, per src/ppo.py line 174). -/
def lensSeg (env : Nat → Episode) (i k : Nat) : List Nat :=
  (List.range' i k).map (fun j => (env j).steps.length + 1)

/-- The stub environment of the spec's end-to-end scenario: every episode
terminates after exactly 1 step with reward 1.0. -/
def stubEnv : Nat → Episode := fun _ => ⟨⟨0, 0, 0, 1⟩, []⟩

/-- The `while t_so_far < total_timesteps` loop of `PPO.learn`
(src/ppo.py lines 45-88), counting collect/update cycles: each cycle runs one
rollout and advances `t_so_far` by `np.sum(batch_lens)` (line 53). `fuel`
bounds the number of iterations modelled; `none` means the loop was still
running when fuel ran out. -/
def learnAux (env : Nat → Episode) (tpb total : Nat) : Nat → Nat → Nat → Nat → Option Nat
  | 0, _, _, _ => none
  | fuel + 1, i, t_so_far, cycles =>
    if t_so_far < total then
      let B := rolloutAux env tpb i 0 [] [] [] [] []
      learnAux env tpb total fuel (i + B.batch_rews.length)
        (t_so_far + B.batch_lens.sum) (cycles + 1)
    else
      some cycles

/-- Number of collect/update cycles `PPO.learn` performs for a total budget
`total`, with batches of target size `tpb`, within `fuel` loop iterations. -/
def learnCycles (env : Nat → Episode) (tpb total fuel : Nat) : Option Nat :=
  learnAux env tpb total fuel 0 0 0

/-! ## PPO learn update internals (src/ppo.py lines 45-88), over `ℝ`

Tensor reductions `.mean()`, `.std()` and elementwise tensor arithmetic from
torch are modelled on lists of reals. `Tensor.std()` uses Bessel's correction
(divides by `n - 1`); the population variant divides by `n`. -/

/-- `torch.Tensor.mean()`: sum divided by length. -/
noncomputable def tmean (l : List ℝ) : ℝ := l.sum / l.length

/-- Sum of squared deviations from the mean. -/
noncomputable def sqDevSum (l : List ℝ) : ℝ := (l.map (fun x => (x - tmean l) ^ 2)).sum

/-- `torch.Tensor.std()` (the default, Bessel-corrected sample standard
deviation): square root of the squared deviations divided by `n - 1`. -/
noncomputable def tstd (l : List ℝ) : ℝ := Real.sqrt (sqDevSum l / ((l.length : ℝ) - 1))

/-- Population standard deviation: square root of the squared deviations
divided by `n`. -/
noncomputable def popStd (l : List ℝ) : ℝ := Real.sqrt (sqDevSum l / (l.length : ℝ))

/-- The `1e-10` stabilizer of src/ppo.py line 63. -/
noncomputable def epsDiv : ℝ := 1 / 10 ^ 10

/-- `A_k = batch_rtgs - V.detach()` (src/ppo.py line 60), elementwise. -/
noncomputable def advantages (batch_rtgs V : List ℝ) : List ℝ :=
  List.zipWith (fun r v => r - v) batch_rtgs V

/-- `A_k = (A_k - A_k.mean()) / (A_k.std() + 1e-10)` (src/ppo.py line 63). -/
noncomputable def normalizedAdvantages (batch_rtgs V : List ℝ) : List ℝ :=
  (advantages batch_rtgs V).map
    (fun a => (a - tmean (advantages batch_rtgs V))
      / (tstd (advantages batch_rtgs V) + epsDiv))

/-- Modelled from the claim's wording: the same normalization but dividing by
the POPULATION standard deviation plus `1e-10`, for comparison with what the
code actually does. -/
noncomputable def specNormalizedAdvantages (batch_rtgs V : List ℝ) : List ℝ :=
  (advantages batch_rtgs V).map
    (fun a => (a - tmean (advantages batch_rtgs V))
      / (popStd (advantages batch_rtgs V) + epsDiv))

/-- `torch.clamp(x, lo, hi)`. -/
noncomputable def clampR (x lo hi : ℝ) : ℝ := min (max x lo) hi

/-- `ratios = torch.exp(curr_log_probs - batch_log_probs)` (src/ppo.py
line 70), elementwise. -/
noncomputable def computeRatios (curr old : List ℝ) : List ℝ :=
  List.zipWith (fun c o => Real.exp (c - o)) curr old

/-- The actor loss pipeline of src/ppo.py lines 70-76: `surr1 = ratios * A_k`,
`surr2 = clamp(ratios, 1-clip, 1+clip) * A_k`,
`actor_loss = (-torch.min(surr1, surr2)).mean()`. -/
noncomputable def actorLossCode (clip : ℝ) (curr old A : List ℝ) : ℝ :=
  tmean (List.zipWith (fun s1 s2 => -(min s1 s2))
    (List.zipWith (fun r a => r * a) (computeRatios curr old) A)
    (List.zipWith (fun r a => clampR r (1 - clip) (1 + clip) * a) (computeRatios curr old) A))

/-- Pointwise ternary zip, for stating the per-sample form of the loss. -/
def zip3With {α β γ δ : Type} (f : α → β → γ → δ) : List α → List β → List γ → List δ
  | a :: as, b :: bs, c :: cs => f a b c :: zip3With f as bs cs
  | _, _, _ => []

/-- The spec's per-sample clipped surrogate term
`-min(r*A, clip(r, 1-eps, 1+eps)*A)`. -/
noncomputable def perSampleSurrogate (clip r a : ℝ) : ℝ :=
  -(min (r * a) (clampR r (1 - clip) (1 + clip) * a))

/-- Modelled from the spec's words: per-sample surrogate terms with
`r = exp(curr - old)`, averaged over the batch. -/
noncomputable def actorLossSpec (clip : ℝ) (curr old A : List ℝ) : ℝ :=
  tmean (zip3With (fun c o a => perSampleSurrogate clip (Real.exp (c - o)) a) curr old A)

/-- `nn.MSELoss()(V, batch_rtgs)` (src/ppo.py line 77). -/
noncomputable def mseLoss (pred tgt : List ℝ) : ℝ :=
  tmean (List.zipWith (fun p t => (p - t) ^ 2) pred tgt)

/-- Per-epoch record of the values the inner update loop reads and computes. -/
structure EpochLog where
  currLogProbs : List ℝ
  actorLossVal : ℝ
  rtgsUsed : List ℝ

/-- The inner `for _ in range(self.n_updates_per_iteration)` loop of
`PPO.learn` (src/ppo.py lines 65-88), with the actor/critic networks and their
optimizer steps abstracted as state-transformers: each epoch re-evaluates
`V` and `curr_log_probs` from the current parameters, computes the actor and
critic losses from the fixed batch data, and steps both parameter sets.
A per-epoch log records the current log-probabilities, the actor loss, and
the rewards-to-go used for the critic loss. -/
noncomputable def learnInner {P Q : Type} (evalActor : P → List ℝ) (evalCritic : Q → List ℝ)
    (stepActor : P → ℝ → P) (stepCritic : Q → ℝ → Q) (clip : ℝ)
    (batch_log_probs A_k batch_rtgs : List ℝ) : Nat → P → Q → P × Q × List EpochLog
  | 0, p, q => (p, q, [])
  | n + 1, p, q =>
      let V := evalCritic q
      let curr := evalActor p
      let aloss := actorLossCode clip curr batch_log_probs A_k
      let closs := mseLoss V batch_rtgs
      let p2 := stepActor p aloss
      let q2 := stepCritic q closs
      let rest := learnInner evalActor evalCritic stepActor stepCritic clip
        batch_log_probs A_k batch_rtgs n p2 q2
      (rest.1, rest.2.1, ⟨curr, aloss, batch_rtgs⟩ :: rest.2.2)

/-! ## DQN agent (src/agent.py) -/

/-- `MAX_MEMOMRY` (src/agent.py line 9, source's own spelling). -/
def MAX_MEMOMRY : Nat := 100000

/-- `collections.deque(maxlen=m).append(x)`: append on the right, and when the
result exceeds the capacity, discard from the left down to capacity. -/
def dequeAppend {α : Type} (maxlen : Nat) (q : List α) (x : α) : List α :=
  let q2 := q ++ [x]
  if maxlen < q2.length then q2.drop (q2.length - maxlen) else q2

/-- `Agent.remember` (src/agent.py lines 44-45): append the transition tuple
to the bounded replay memory. -/
def remember {α : Type} (memory : List α) (x : α) : List α :=
  dequeAppend MAX_MEMOMRY memory x

/-- A whole sequence of `remember` calls starting from the empty memory of
`Agent.__init__` (src/agent.py line 18). -/
def rememberAll {α : Type} (xs : List α) : List α := xs.foldl remember []

/-- `pygame.K_UP`. -/
def K_UP : Nat := 1073741906

/-- `pygame.K_RIGHT`. -/
def K_RIGHT : Nat := 1073741903

/-- `pygame.K_DOWN`. -/
def K_DOWN : Nat := 1073741905

/-- `pygame.K_LEFT`. -/
def K_LEFT : Nat := 1073741904

/-- The externally observable effects of one iteration of the `while True`
training loop in `train` (src/agent.py lines 99-115): which move is passed to
`game.update`, and which `(state, action, reward, next_state, done)` tuples
are passed to `train_short_memory` and `remember`. -/
structure TrainIterTrace (S : Type) where
  moveToUpdate : Nat
  shortMemArgs : S × Nat × ℚ × S × Bool
  rememberedArgs : S × Nat × ℚ × S × Bool

/-- One iteration of the `train` loop (src/agent.py lines 99-115):
`final_move = agent.get_action(state_old)` (line 104) followed by
`final_move = pygame.K_RIGHT` (line 107), then
`reward, done, score = game.update(final_move)` and the two training calls
with the same `final_move`. `game.update` is abstracted as a function from the
move to `(reward, done, score)`, and `state_new` (the post-update
`agent.get_state(game)`) as a parameter. -/
def trainIterTrace {S : Type} (state_old : S) (agentMove : Nat)
    (update : Nat → ℚ × Bool × ℚ) (state_new : S) : TrainIterTrace S :=
  let final_move := agentMove
  let final_move := K_RIGHT
  let res := update final_move
  let reward := res.1
  let done := res.2.1
  { moveToUpdate := final_move,
    shortMemArgs := (state_old, final_move, reward, state_new, done),
    rememberedArgs := (state_old, final_move, reward, state_new, done) }

lemma rtgList_length (gamma : ℚ) (ep : List ℚ) : (rtgList gamma ep).length = ep.length := by
  induction ep with
  | nil => rfl
  | cons r rest ih => simp [rtgList, ih]

lemma inner_foldr_eq (gamma : ℚ) (ep : List ℚ) (acc : List ℚ) :
    List.foldr (fun x (y : ℚ × List ℚ) => (x + y.1 * gamma, (x + y.1 * gamma) :: y.2))
        ((0 : ℚ), acc) ep
      = ((rtgList gamma ep).headD 0, rtgList gamma ep ++ acc) := by
  induction ep with
  | nil => simp [rtgList]
  | cons r rest ih => simp [rtgList, ih]

lemma foldr_append_flatten (f : List ℚ → List ℚ) (l : List (List ℚ)) :
    List.foldr (fun x y => f x ++ y) [] l = (l.map f).flatten := by
  induction l with
  | nil => simp
  | cons a as ih => simp [ih]

lemma compute_rtgs_eq_join (gamma : ℚ) (batch : List (List ℚ)) :
    compute_rtgs gamma batch = (batch.map (rtgList gamma)).flatten := by
  unfold compute_rtgs
  rw [List.foldl_reverse]
  simp only [List.foldl_reverse, inner_foldr_eq]
  exact foldr_append_flatten _ batch

lemma compute_rtgs_singleton (gamma : ℚ) (ep : List ℚ) :
    compute_rtgs gamma [ep] = rtgList gamma ep := by
  simp [compute_rtgs_eq_join]

lemma rtgList_getD_rec (gamma : ℚ) (ep : List ℚ) :
    ∀ i : Nat, i + 1 < ep.length →
      (rtgList gamma ep).getD i 0 = ep.getD i 0 + gamma * (rtgList gamma ep).getD (i + 1) 0 := by
  induction ep with
  | nil => intro i h; simp at h
  | cons r rest ih =>
    intro i hi
    cases i with
    | zero =>
      have hrest : rest ≠ [] := by
        intro hE; rw [hE] at hi; simp at hi
      have hlen : 0 < (rtgList gamma rest).length := by
        rw [rtgList_length]
        exact List.length_pos.mpr hrest
      obtain ⟨x, xs, hxx⟩ := List.exists_cons_of_ne_nil (List.length_pos.mp hlen)
      simp [rtgList, hxx]
      ring
    | succ j =>
      have hj : j + 1 < rest.length := by simpa using hi
      simpa [rtgList] using ih j hj

lemma rtgList_getLast? (gamma : ℚ) (ep : List ℚ) (h : ep ≠ []) :
    (rtgList gamma ep).getLast? = ep.getLast? := by
  induction ep with
  | nil => exact absurd rfl h
  | cons r rest ih =>
    cases rest with
    | nil => simp [rtgList]
    | cons x xs =>
      have hne : (x :: xs : List ℚ) ≠ [] := by simp
      have hih := ih hne
      obtain ⟨y, ys, hys⟩ : ∃ y ys, rtgList gamma (x :: xs) = y :: ys := ⟨_, _, rfl⟩
      rw [rtgList, hys, List.getLast?_cons_cons, ← hys, hih, List.getLast?_cons_cons]

/-- C1: for every episode reward list and discount, the rewards-to-go computed
by `compute_rtgs` satisfy `g_i = r_i + gamma * g_{i+1}` for `i < n` and
`g_n = r_n`, and the whole-batch result is the concatenation of the
per-episode results in the original forward order of episodes. -/
theorem claim_C1 (gamma : ℚ) (batch_rews : List (List ℚ)) (ep_rews : List ℚ) (i : Nat) :
    compute_rtgs gamma batch_rews
        = (batch_rews.map (fun ep => compute_rtgs gamma [ep])).flatten ∧
    (compute_rtgs gamma [ep_rews]).length = ep_rews.length ∧
    (i + 1 < ep_rews.length →
      (compute_rtgs gamma [ep_rews]).getD i 0
        = ep_rews.getD i 0 + gamma * (compute_rtgs gamma [ep_rews]).getD (i + 1) 0) ∧
    (ep_rews ≠ [] → (compute_rtgs gamma [ep_rews]).getLast? = ep_rews.getLast?) := by
  refine ⟨?_, ?_, ?_, ?_⟩
  · simp [compute_rtgs_eq_join, compute_rtgs_singleton]
  · rw [compute_rtgs_singleton]; exact rtgList_length gamma ep_rews
  · intro h
    rw [compute_rtgs_singleton]
    exact rtgList_getD_rec gamma ep_rews i h
  · intro h
    rw [compute_rtgs_singleton]
    exact rtgList_getLast? gamma ep_rews h

/-- Witness for C1 at the spec's own example: rewards `[1,1,1]`, gamma `1/2`,
index `0`; rewards-to-go are `[7/4, 3/2, 1]`. -/
theorem claim_C1_witness :
    ((0 : Nat) + 1 < ([1, 1, 1] : List ℚ).length) ∧
    (([1, 1, 1] : List ℚ) ≠ []) ∧
    ((compute_rtgs (1/2) [[1, 1, 1]]).getD 0 0
      = ([1, 1, 1] : List ℚ).getD 0 0 + (1/2) * (compute_rtgs (1/2) [[1, 1, 1]]).getD 1 0) ∧
    ((compute_rtgs (1/2) [[1, 1, 1]]).getLast? = ([1, 1, 1] : List ℚ).getLast?) :=
  ⟨by decide, by decide,
    (claim_C1 (1/2) [[1, 1, 1]] [1, 1, 1] 0).2.2.1 (by decide),
    (claim_C1 (1/2) [[1, 1, 1]] [1, 1, 1] 0).2.2.2 (by decide)⟩

lemma runSteps_spec (steps : List StepData) : ∀ st : EpRun,
    runSteps steps st =
      { ep_t := st.ep_t + steps.length, t := st.t + steps.length,
        obs := st.obs ++ steps.map StepData.obs, acts := st.acts ++ steps.map StepData.act,
        logps := st.logps ++ steps.map StepData.logp,
        ep_rews := st.ep_rews ++ steps.map StepData.rew } := by
  induction steps with
  | nil => intro st; simp [runSteps]
  | cons s rest ih =>
    intro st
    rw [runSteps, ih]
    simp [EpRun.mk.injEq]
    omega

lemma steps_length (e : Episode) : e.steps.length = e.tl.length + 1 := rfl

lemma segSteps_zero (env : Nat → Episode) (i : Nat) : segSteps env i 0 = [] := by
  simp [segSteps]

lemma segSteps_succ (env : Nat → Episode) (i k : Nat) :
    segSteps env i (k + 1) = (env i).steps ++ segSteps env (i + 1) k := by
  simp [segSteps, List.range'_succ]

lemma segLen_zero (env : Nat → Episode) (i : Nat) : segLen env i 0 = 0 := by
  simp [segLen, segSteps_zero]

lemma segLen_succ (env : Nat → Episode) (i k : Nat) :
    segLen env i (k + 1) = (env i).steps.length + segLen env (i + 1) k := by
  simp [segLen, segSteps_succ]

lemma rewsSeg_zero (env : Nat → Episode) (i : Nat) : rewsSeg env i 0 = [] := by
  simp [rewsSeg]

lemma rewsSeg_succ (env : Nat → Episode) (i k : Nat) :
    rewsSeg env i (k + 1) = (env i).steps.map StepData.rew :: rewsSeg env (i + 1) k := by
  simp [rewsSeg, List.range'_succ]

lemma lensSeg_zero (env : Nat → Episode) (i : Nat) : lensSeg env i 0 = [] := by
  simp [lensSeg]

lemma lensSeg_succ (env : Nat → Episode) (i k : Nat) :
    lensSeg env i (k + 1) = ((env i).steps.length + 1) :: lensSeg env (i + 1) k := by
  simp [lensSeg, List.range'_succ]

lemma rolloutAux_spec (env : Nat → Episode) (target : Nat) :
    ∀ n i t, target - t ≤ n →
      ∀ (obs acts logps : List ℚ) (rews : List (List ℚ)) (lens : List Nat),
      rolloutAux env target i t obs acts logps rews lens =
        { batch_obs := obs ++ (segSteps env i (epCount env target i t)).map StepData.obs,
          batch_acts := acts ++ (segSteps env i (epCount env target i t)).map StepData.act,
          batch_log_probs := logps ++ (segSteps env i (epCount env target i t)).map StepData.logp,
          batch_rews := rews ++ rewsSeg env i (epCount env target i t),
          batch_rtgs := compute_rtgs gammaHP (rews ++ rewsSeg env i (epCount env target i t)),
          batch_lens := lens ++ lensSeg env i (epCount env target i t) } := by
  intro n
  induction n with
  | zero =>
    intro i t h obs acts logps rews lens
    have ht : ¬ t < target := by omega
    rw [rolloutAux, epCount]
    simp [ht, segSteps_zero, rewsSeg_zero, lensSeg_zero]
  | succ n ih =>
    intro i t h obs acts logps rews lens
    by_cases ht : t < target
    · rw [rolloutAux, if_pos ht, runSteps_spec, epCount, if_pos ht]
      simp only []
      rw [ih (i + 1) (t + (env i).steps.length)
        (by have hl := steps_length (env i); omega)]
      simp [segSteps_succ, rewsSeg_succ, lensSeg_succ, Batch.mk.injEq, List.append_assoc]
    · rw [rolloutAux, if_neg ht, epCount, if_neg ht]
      simp [segSteps_zero, rewsSeg_zero, lensSeg_zero]

lemma rollout_spec (env : Nat → Episode) (target : Nat) :
    rollout env target =
      { batch_obs := (segSteps env 0 (epCount env target 0 0)).map StepData.obs,
        batch_acts := (segSteps env 0 (epCount env target 0 0)).map StepData.act,
        batch_log_probs := (segSteps env 0 (epCount env target 0 0)).map StepData.logp,
        batch_rews := rewsSeg env 0 (epCount env target 0 0),
        batch_rtgs := compute_rtgs gammaHP (rewsSeg env 0 (epCount env target 0 0)),
        batch_lens := lensSeg env 0 (epCount env target 0 0) } := by
  unfold rollout
  rw [rolloutAux_spec env target target 0 0 (by omega)]
  simp

lemma epCount_pos (env : Nat → Episode) (target i t : Nat) (h : t < target) :
    0 < epCount env target i t := by
  rw [epCount, if_pos h]
  omega

lemma epCount_ge (env : Nat → Episode) (target : Nat) :
    ∀ n i t, target - t ≤ n → target ≤ t + segLen env i (epCount env target i t) := by
  intro n
  induction n with
  | zero =>
    intro i t h
    have ht : ¬ t < target := by omega
    rw [epCount, if_neg ht]
    rw [segLen_zero]
    omega
  | succ n ih =>
    intro i t h
    by_cases ht : t < target
    · rw [epCount, if_pos ht, segLen_succ]
      have hl := steps_length (env i)
      have := ih (i + 1) (t + (env i).steps.length) (by omega)
      omega
    · rw [epCount, if_neg ht, segLen_zero]
      omega

lemma epCount_last_lt (env : Nat → Episode) (target : Nat) :
    ∀ n i t, target - t ≤ n → 0 < epCount env target i t →
      t + segLen env i (epCount env target i t - 1) < target := by
  intro n
  induction n with
  | zero =>
    intro i t h hpos
    have ht : ¬ t < target := by omega
    rw [epCount, if_neg ht] at hpos
    omega
  | succ n ih =>
    intro i t h hpos
    by_cases ht : t < target
    · rw [epCount, if_pos ht]
      simp only [Nat.add_sub_cancel]
      by_cases hk : 0 < epCount env target (i + 1) (t + (env i).steps.length)
      · have hl := steps_length (env i)
        have := ih (i + 1) (t + (env i).steps.length) (by omega) hk
        obtain ⟨k, hkeq⟩ : ∃ k, epCount env target (i + 1) (t + (env i).steps.length) = k + 1 :=
          ⟨_, (Nat.succ_pred_eq_of_pos hk).symm⟩
        rw [hkeq]
        rw [hkeq] at this
        simp only [Nat.add_sub_cancel] at this
        rw [segLen_succ]
        omega
      · have hk0 : epCount env target (i + 1) (t + (env i).steps.length) = 0 := by omega
        rw [hk0, segLen_zero]
        omega
    · rw [epCount, if_neg ht] at hpos
      omega

lemma segLen_succ_right (env : Nat → Episode) :
    ∀ k i, segLen env i (k + 1) = segLen env i k + (env (i + k)).steps.length := by
  intro k
  induction k with
  | zero => intro i; simp [segLen_succ, segLen_zero]
  | succ k ih =>
    intro i
    rw [segLen_succ, ih (i + 1), segLen_succ]
    have : i + 1 + k = i + (k + 1) := by omega
    rw [this]
    omega

lemma lensSeg_sum (env : Nat → Episode) :
    ∀ k i, (lensSeg env i k).sum = segLen env i k + k := by
  intro k
  induction k with
  | zero => intro i; rw [lensSeg_zero, segLen_zero]; rfl
  | succ k ih =>
    intro i
    rw [lensSeg_succ, segLen_succ, List.sum_cons, ih (i + 1)]
    omega

lemma rewsSeg_length (env : Nat → Episode) (i k : Nat) : (rewsSeg env i k).length = k := by
  simp [rewsSeg]

lemma stub_epCount (target : Nat) :
    ∀ n i t, target - t ≤ n → epCount stubEnv target i t = target - t := by
  intro n
  induction n with
  | zero =>
    intro i t h
    have ht : ¬ t < target := by omega
    rw [epCount, if_neg ht]
    omega
  | succ n ih =>
    intro i t h
    by_cases ht : t < target
    · rw [epCount, if_pos ht]
      have hs : (stubEnv i).steps.length = 1 := rfl
      rw [hs, ih (i + 1) (t + 1) (by omega)]
      omega
    · rw [epCount, if_neg ht]
      omega

lemma stub_segLen : ∀ k i, segLen stubEnv i k = k := by
  intro k
  induction k with
  | zero => intro i; exact segLen_zero stubEnv i
  | succ k ih =>
    intro i
    rw [segLen_succ]
    have hs : (stubEnv i).steps.length = 1 := rfl
    rw [hs, ih (i + 1)]
    omega

lemma learnAux_stop (env : Nat → Episode) (tpb total fuel i t c : Nat) (h : ¬ t < total) :
    learnAux env tpb total (fuel + 1) i t c = some c := by
  rw [learnAux, if_neg h]

lemma learnAux_step (env : Nat → Episode) (tpb total fuel i t c : Nat) (h : t < total) :
    learnAux env tpb total (fuel + 1) i t c
      = learnAux env tpb total fuel
          (i + (rolloutAux env tpb i 0 [] [] [] [] []).batch_rews.length)
          (t + (rolloutAux env tpb i 0 [] [] [] [] []).batch_lens.sum) (c + 1) := by
  rw [learnAux, if_pos h]

/-- C4: the rollout loop never stops before the accumulated timestep count
reaches the target, it stops starting new episodes once the target is reached,
each collected episode appears whole (never truncated) in forward order, and
the overshoot beyond the target is less than the length of the final episode. -/
theorem claim_C4 (env : Nat → Episode) (target : Nat) (h : 0 < target) :
    target ≤ (rollout env target).batch_obs.length ∧
    ∃ k, 0 < k ∧
      (rollout env target).batch_obs.length = segLen env 0 k ∧
      (rollout env target).batch_rews = rewsSeg env 0 k ∧
      segLen env 0 (k - 1) < target ∧
      (rollout env target).batch_obs.length < target + (env (k - 1)).steps.length := by
  have hobs : (rollout env target).batch_obs.length = segLen env 0 (epCount env target 0 0) := by
    rw [rollout_spec]
    simp [segLen]
  have hge := epCount_ge env target target 0 0 (by omega)
  have hpos := epCount_pos env target 0 0 h
  have hlast := epCount_last_lt env target target 0 0 (by omega) hpos
  refine ⟨by omega, epCount env target 0 0, hpos, hobs, ?_, by omega, ?_⟩
  · rw [rollout_spec]
  · obtain ⟨k, hk⟩ : ∃ k, epCount env target 0 0 = k + 1 :=
      ⟨_, (Nat.succ_pred_eq_of_pos hpos).symm⟩
    have hsr := segLen_succ_right env k 0
    rw [hk] at hobs hlast ⊢
    simp only [Nat.add_sub_cancel] at hlast ⊢
    simp only [Nat.zero_add] at hsr
    omega

/-- Witness for C4: the stub environment (all episodes one step long) with
target 2. -/
theorem claim_C4_witness :
    (0 < 2) ∧
    (2 ≤ (rollout stubEnv 2).batch_obs.length ∧
     ∃ k, 0 < k ∧
       (rollout stubEnv 2).batch_obs.length = segLen stubEnv 0 k ∧
       (rollout stubEnv 2).batch_rews = rewsSeg stubEnv 0 k ∧
       segLen stubEnv 0 (k - 1) < 2 ∧
       (rollout stubEnv 2).batch_obs.length < 2 + (stubEnv (k - 1)).steps.length) :=
  ⟨by decide, claim_C4 stubEnv 2 (by decide)⟩

/-- C5 (code bug): `np.sum(batch_lens)` does NOT equal the number of collected
timesteps: each `batch_lens` entry is the episode length plus one (src/ppo.py
line 174), so the sum exceeds the number of collected timesteps by exactly the
number of episodes in the batch. Concretely, with one-step episodes and
target 1, rollout collects 1 timestep but reports `sum(batch_lens) = 2`. -/
theorem claim_C5 (env : Nat → Episode) (target : Nat) :
    (rollout env target).batch_lens.sum
      = (rollout env target).batch_obs.length + (rollout env target).batch_rews.length ∧
    (rollout stubEnv 1).batch_lens.sum = 2 ∧
    (rollout stubEnv 1).batch_obs.length = 1 := by
  have hc : epCount stubEnv 1 0 0 = 1 := by
    have := stub_epCount 1 1 0 0 (by omega)
    omega
  refine ⟨?_, ?_, ?_⟩
  · rw [rollout_spec]
    simp [lensSeg_sum, rewsSeg_length, segLen]
  · rw [rollout_spec]
    simp [lensSeg_sum, hc, stub_segLen]
  · rw [rollout_spec]
    simp only [List.length_map]
    show segLen stubEnv 0 (epCount stubEnv 1 0 0) = 1
    rw [hc, stub_segLen]

/-- C6: the observation, action and log-probability sequences returned by
rollout are the three projections of one and the same flat sequence of
timestep records, hence equal in length and index-aligned: position `i` of all
three belongs to the same timestep. -/
theorem claim_C6 (env : Nat → Episode) (target : Nat) :
    (rollout env target).batch_obs
        = (segSteps env 0 (rollout env target).batch_rews.length).map StepData.obs ∧
    (rollout env target).batch_acts
        = (segSteps env 0 (rollout env target).batch_rews.length).map StepData.act ∧
    (rollout env target).batch_log_probs
        = (segSteps env 0 (rollout env target).batch_rews.length).map StepData.logp ∧
    (rollout env target).batch_obs.length = (rollout env target).batch_acts.length ∧
    (rollout env target).batch_acts.length = (rollout env target).batch_log_probs.length := by
  rw [rollout_spec]
  simp [rewsSeg_length]

/-- C8: running `learn` with a budget of exactly `timesteps_per_batch` against
the stub environment whose episodes all terminate after exactly one step
performs exactly one collect/update cycle and terminates. -/
theorem claim_C8 (tpb : Nat) (h : 0 < tpb) :
    learnCycles stubEnv tpb tpb 2 = some 1 := by
  unfold learnCycles
  rw [show (2 : Nat) = 1 + 1 from rfl, learnAux_step stubEnv tpb tpb 1 0 0 0 h]
  have hB : rolloutAux stubEnv tpb 0 0 [] [] [] [] [] = rollout stubEnv tpb := rfl
  have hc : epCount stubEnv tpb 0 0 = tpb := by
    have := stub_epCount tpb tpb 0 0 (by omega)
    omega
  have hlens : (rollout stubEnv tpb).batch_lens.sum = tpb + tpb := by
    rw [rollout_spec]
    simp [lensSeg_sum, hc, stub_segLen]
  have hrews : (rollout stubEnv tpb).batch_rews.length = tpb := by
    rw [rollout_spec]
    simp [rewsSeg_length, hc]
  rw [hB, hlens, hrews]
  rw [show (1 : Nat) = 0 + 1 from rfl, learnAux_stop]
  omega

/-- Witness for C8 at `tpb = 3`. -/
theorem claim_C8_witness : (0 < 3) ∧ learnCycles stubEnv 3 3 2 = some 1 :=
  ⟨by decide, claim_C8 3 (by decide)⟩

lemma zip_min_eq_zip3 (clip : ℝ) :
    ∀ (curr old A : List ℝ),
    List.zipWith (fun s1 s2 => -(min s1 s2))
        (List.zipWith (fun r a => r * a) (computeRatios curr old) A)
        (List.zipWith (fun r a => clampR r (1 - clip) (1 + clip) * a) (computeRatios curr old) A)
      = zip3With (fun c o a => perSampleSurrogate clip (Real.exp (c - o)) a) curr old A := by
  intro curr
  induction curr with
  | nil => intro old A; cases old <;> cases A <;> simp [computeRatios, zip3With]
  | cons c cs ih =>
    intro old A
    cases old with
    | nil => cases A <;> simp [computeRatios, zip3With]
    | cons o os =>
      cases A with
      | nil => simp [computeRatios, zip3With]
      | cons a as =>
        simpa [computeRatios, zip3With, perSampleSurrogate] using ih os as

lemma actorLoss_eq (clip : ℝ) (curr old A : List ℝ) :
    actorLossCode clip curr old A = actorLossSpec clip curr old A := by
  unfold actorLossCode actorLossSpec
  rw [zip_min_eq_zip3]

lemma learnInner_loss_log {P Q : Type} (eA : P → List ℝ) (eC : Q → List ℝ)
    (sA : P → ℝ → P) (sC : Q → ℝ → Q) (clip : ℝ) (blp A rtgs : List ℝ) :
    ∀ (n : Nat) (p : P) (q : Q),
      ((learnInner eA eC sA sC clip blp A rtgs n p q).2.2).map EpochLog.actorLossVal
        = ((learnInner eA eC sA sC clip blp A rtgs n p q).2.2).map
            (fun l => actorLossSpec clip l.currLogProbs blp A) := by
  intro n
  induction n with
  | zero => intro p q; simp [learnInner]
  | succ n ih => intro p q; simp [learnInner, actorLoss_eq, ih]

lemma learnInner_rtgs_log {P Q : Type} (eA : P → List ℝ) (eC : Q → List ℝ)
    (sA : P → ℝ → P) (sC : Q → ℝ → Q) (clip : ℝ) (blp A rtgs : List ℝ) :
    ∀ (n : Nat) (p : P) (q : Q),
      ((learnInner eA eC sA sC clip blp A rtgs n p q).2.2).map EpochLog.rtgsUsed
        = List.replicate n rtgs := by
  intro n
  induction n with
  | zero => intro p q; simp [learnInner]
  | succ n ih => intro p q; simp [learnInner, ih, List.replicate_succ]

/-- C2: in every inner update epoch, the actor loss computed by the code's
tensor pipeline equals the batch average of the per-sample clipped surrogate
`-min(exp(curr-old)*A, clamp(exp(curr-old), 1-clip, 1+clip)*A)`; both as a
standalone identity over arbitrary batches and along the instrumented inner
update loop. -/
theorem claim_C2 :
    (∀ (clip : ℝ) (curr old A : List ℝ),
      actorLossCode clip curr old A = actorLossSpec clip curr old A) ∧
    (∀ (P Q : Type) (eA : P → List ℝ) (eC : Q → List ℝ)
       (sA : P → ℝ → P) (sC : Q → ℝ → Q) (clip : ℝ) (blp A rtgs : List ℝ)
       (n : Nat) (p : P) (q : Q),
      ((learnInner eA eC sA sC clip blp A rtgs n p q).2.2).map EpochLog.actorLossVal
        = ((learnInner eA eC sA sC clip blp A rtgs n p q).2.2).map
            (fun l => actorLossSpec clip l.currLogProbs blp A)) :=
  ⟨actorLoss_eq, fun _ _ eA eC sA sC clip blp A rtgs n p q =>
    learnInner_loss_log eA eC sA sC clip blp A rtgs n p q⟩

/-- C7: the rewards-to-go of a batch are computed once, inside rollout, as
`compute_rtgs` of the batch's reward lists, and the inner update loop reads
the very same value in every one of its epochs without recomputing or
modifying it. -/
theorem claim_C7 (env : Nat → Episode) (target : Nat) (P Q : Type)
    (eA : P → List ℝ) (eC : Q → List ℝ) (sA : P → ℝ → P) (sC : Q → ℝ → Q)
    (clip : ℝ) (blp A_k : List ℝ) (n : Nat) (p : P) (q : Q) :
    (rollout env target).batch_rtgs = compute_rtgs gammaHP (rollout env target).batch_rews ∧
    ((learnInner eA eC sA sC clip blp A_k
        ((rollout env target).batch_rtgs.map (fun x : ℚ => (x : ℝ))) n p q).2.2).map
        EpochLog.rtgsUsed
      = List.replicate n ((rollout env target).batch_rtgs.map (fun x : ℚ => (x : ℝ))) := by
  constructor
  · rw [rollout_spec]
  · exact learnInner_rtgs_log eA eC sA sC clip blp A_k _ n p q

lemma list_sum_map_sub (l : List ℝ) (c : ℝ) :
    (l.map (fun x => x - c)).sum = l.sum - l.length * c := by
  induction l with
  | nil => simp
  | cons a as ih =>
    simp [ih]
    ring

lemma list_sum_map_div (l : List ℝ) (f : ℝ → ℝ) (d : ℝ) :
    (l.map (fun x => f x / d)).sum = (l.map f).sum / d := by
  induction l with
  | nil => simp
  | cons a as ih => simp [ih, add_div]

lemma length_cast_ne_zero (l : List ℝ) (h : l ≠ []) : (l.length : ℝ) ≠ 0 := by
  have : l.length ≠ 0 := by
    intro hE
    exact h (List.length_eq_zero.mp hE)
  exact_mod_cast this

lemma tmean_mul_length (l : List ℝ) (h : l ≠ []) : (l.length : ℝ) * tmean l = l.sum := by
  have hl := length_cast_ne_zero l h
  unfold tmean
  field_simp

lemma tmean_centered (l : List ℝ) (h : l ≠ []) (d : ℝ) :
    tmean (l.map (fun x => (x - tmean l) / d)) = 0 := by
  have hsum : (l.map (fun x => (x - tmean l) / d)).sum = 0 := by
    rw [list_sum_map_div l (fun x => x - tmean l) d, list_sum_map_sub, tmean_mul_length l h]
    simp
  show (l.map (fun x => (x - tmean l) / d)).sum
      / ((l.map (fun x => (x - tmean l) / d)).length : ℝ) = 0
  rw [hsum, zero_div]

lemma sqDevSum_nonneg (l : List ℝ) : 0 ≤ sqDevSum l := by
  unfold sqDevSum
  apply List.sum_nonneg
  intro x hx
  obtain ⟨y, _, rfl⟩ := List.mem_map.mp hx
  positivity

lemma sqDevSum_centered (l : List ℝ) (h : l ≠ []) (d : ℝ) :
    sqDevSum (l.map (fun x => (x - tmean l) / d)) = sqDevSum l / d ^ 2 := by
  unfold sqDevSum
  rw [tmean_centered l h d, List.map_map]
  have hfun : ((fun x => (x - 0) ^ 2) ∘ fun x => (x - tmean l) / d)
      = fun x => ((x - tmean l) ^ 2) / d ^ 2 := by
    funext x
    simp [div_pow]
  rw [hfun, list_sum_map_div l (fun x => (x - tmean l) ^ 2) (d ^ 2)]

lemma tstd_nonneg (l : List ℝ) : 0 ≤ tstd l := Real.sqrt_nonneg _

lemma popStd_nonneg (l : List ℝ) : 0 ≤ popStd l := Real.sqrt_nonneg _

lemma tstd_short (l : List ℝ) (h : l.length ≤ 1) : tstd l = 0 := by
  cases l with
  | nil => simp [tstd, sqDevSum]
  | cons a as =>
    cases as with
    | nil => simp [tstd, sqDevSum, tmean]
    | cons b bs => simp at h

lemma length_two_of_tstd_pos (l : List ℝ) (h : 0 < tstd l) : 2 ≤ l.length := by
  by_contra hlt
  push_neg at hlt
  have := tstd_short l (by omega)
  rw [this] at h
  exact lt_irrefl 0 h

lemma tstd_centered (l : List ℝ) (h2 : 2 ≤ l.length) (d : ℝ) (hd : 0 < d) :
    tstd (l.map (fun x => (x - tmean l) / d)) = tstd l / d := by
  have hne : l ≠ [] := by
    intro hE
    rw [hE] at h2
    simp at h2
  have hlen : (2 : ℝ) ≤ (l.length : ℝ) := by exact_mod_cast h2
  unfold tstd
  rw [List.length_map, sqDevSum_centered l hne d]
  have harg : sqDevSum l / d ^ 2 / ((l.length : ℝ) - 1)
      = (sqDevSum l / ((l.length : ℝ) - 1)) / d ^ 2 := by ring
  have hnum : (0 : ℝ) ≤ sqDevSum l / ((l.length : ℝ) - 1) :=
    div_nonneg (sqDevSum_nonneg l) (by linarith)
  rw [harg, Real.sqrt_div hnum (d ^ 2), Real.sqrt_sq hd.le]

lemma popStd_centered (l : List ℝ) (h : l ≠ []) (d : ℝ) (hd : 0 < d) :
    popStd (l.map (fun x => (x - tmean l) / d)) = popStd l / d := by
  unfold popStd
  rw [List.length_map, sqDevSum_centered l h d]
  have harg : sqDevSum l / d ^ 2 / (l.length : ℝ)
      = (sqDevSum l / (l.length : ℝ)) / d ^ 2 := by ring
  have hnum : (0 : ℝ) ≤ sqDevSum l / (l.length : ℝ) :=
    div_nonneg (sqDevSum_nonneg l) (Nat.cast_nonneg _)
  rw [harg, Real.sqrt_div hnum (d ^ 2), Real.sqrt_sq hd.le]

lemma adv_ex : advantages [0, 2] [0, 0] = [0, 2] := by
  unfold advantages
  norm_num

lemma tmean_ex : tmean [0, 2] = 1 := by
  unfold tmean
  norm_num

lemma sqDevSum_ex : sqDevSum [0, 2] = 2 := by
  unfold sqDevSum
  rw [tmean_ex]
  norm_num

lemma tstd_ex : tstd [0, 2] = Real.sqrt 2 := by
  unfold tstd
  rw [sqDevSum_ex]
  norm_num

lemma popStd_ex : popStd [0, 2] = 1 := by
  unfold popStd
  rw [sqDevSum_ex]
  norm_num

lemma sqrt_two_gt : (4 : ℝ) / 3 < Real.sqrt 2 := by
  have hs : Real.sqrt 2 ^ 2 = 2 := Real.sq_sqrt (by norm_num)
  have hnn := Real.sqrt_nonneg 2
  nlinarith

lemma epsDiv_pos : (0 : ℝ) < epsDiv := by
  unfold epsDiv
  norm_num

/-- C3 counterexample: the batch with rewards-to-go `[0, 2]` and value
estimates `[0, 0]` is non-degenerate (its pre-normalization population std is
`1`, far above `1e-10`), yet the code's normalized advantages have population
standard deviation below `3/4` (it is `1/(sqrt 2 + 1e-10) ≈ 0.707`), not
approximately `1`, and the code's normalization differs from the claimed
divide-by-population-std normalization on this batch. -/
theorem claim_C3_counterexample :
    epsDiv < popStd (advantages [0, 2] [0, 0]) ∧
    popStd (normalizedAdvantages [0, 2] [0, 0]) < 3 / 4 ∧
    normalizedAdvantages [0, 2] [0, 0] ≠ specNormalizedAdvantages [0, 2] [0, 0] := by
  have hd : (0 : ℝ) < tstd [0, 2] + epsDiv := by
    have := tstd_nonneg ([0, 2] : List ℝ)
    have := epsDiv_pos
    linarith
  have hne : ([0, 2] : List ℝ) ≠ [] := by simp
  refine ⟨?_, ?_, ?_⟩
  · rw [adv_ex, popStd_ex]
    have := epsDiv_pos
    unfold epsDiv at *
    norm_num
  · have hpop : popStd (normalizedAdvantages [0, 2] [0, 0])
        = popStd [0, 2] / (tstd [0, 2] + epsDiv) := by
      unfold normalizedAdvantages
      rw [adv_ex]
      exact popStd_centered [0, 2] hne _ hd
    rw [hpop, popStd_ex, tstd_ex]
    rw [div_lt_iff₀ (by rw [tstd_ex] at hd; exact hd)]
    have h2 := sqrt_two_gt
    have he := epsDiv_pos
    nlinarith
  · have hnl : normalizedAdvantages [0, 2] [0, 0]
        = [(0 - 1) / (Real.sqrt 2 + epsDiv), (2 - 1) / (Real.sqrt 2 + epsDiv)] := by
      unfold normalizedAdvantages
      rw [adv_ex, tmean_ex, tstd_ex]
      norm_num
    have hsl : specNormalizedAdvantages [0, 2] [0, 0]
        = [(0 - 1) / (1 + epsDiv), (2 - 1) / (1 + epsDiv)] := by
      unfold specNormalizedAdvantages
      rw [adv_ex, tmean_ex, popStd_ex]
      norm_num
    intro hEq
    rw [hnl, hsl] at hEq
    have h2 := (List.cons.injEq _ _ _ _).mp hEq
    have h3 := (List.cons.injEq _ _ _ _).mp h2.2
    have hkey : (2 - 1 : ℝ) / (Real.sqrt 2 + epsDiv) = (2 - 1) / (1 + epsDiv) := h3.1
    have hd2 : (0 : ℝ) < 1 + epsDiv := by
      have := epsDiv_pos
      linarith
    have hdr : (0 : ℝ) < Real.sqrt 2 + epsDiv := by
      rw [tstd_ex] at hd
      exact hd
    rw [div_eq_div_iff hdr.ne' hd2.ne'] at hkey
    have hs2 := sqrt_two_gt
    nlinarith

/-- C3 (amended): the advantages are rewards-to-go minus value estimates,
normalized by subtracting the batch mean and dividing by the SAMPLE
(Bessel-corrected) standard deviation plus `1e-10`; the denominator is always
positive (even on a uniform batch), and for every batch whose pre-normalization
sample std is at least `1e-5` the normalized advantages have mean exactly `0`
and sample standard deviation within `1e-5` of `1`. -/
theorem claim_C3 (batch_rtgs V : List ℝ) :
    0 < tstd (advantages batch_rtgs V) + epsDiv ∧
    (1 / 100000 ≤ tstd (advantages batch_rtgs V) →
      tmean (normalizedAdvantages batch_rtgs V) = 0 ∧
      |tstd (normalizedAdvantages batch_rtgs V) - 1| ≤ 1 / 100000) := by
  refine ⟨?_, ?_⟩
  · have := tstd_nonneg (advantages batch_rtgs V)
    have := epsDiv_pos
    linarith
  intro h
  have hs0 : 0 < tstd (advantages batch_rtgs V) := by
    have : (0 : ℝ) < 1 / 100000 := by norm_num
    linarith
  have hd : 0 < tstd (advantages batch_rtgs V) + epsDiv := by
    have := epsDiv_pos
    linarith
  have h2 : 2 ≤ (advantages batch_rtgs V).length := length_two_of_tstd_pos _ hs0
  have hne : advantages batch_rtgs V ≠ [] := by
    intro hE
    rw [hE] at h2
    simp at h2
  refine ⟨?_, ?_⟩
  · exact tmean_centered (advantages batch_rtgs V) hne _
  · have hstd : tstd (normalizedAdvantages batch_rtgs V)
        = tstd (advantages batch_rtgs V) / (tstd (advantages batch_rtgs V) + epsDiv) := by
      unfold normalizedAdvantages
      exact tstd_centered (advantages batch_rtgs V) h2 _ hd
    rw [hstd]
    have hkey : tstd (advantages batch_rtgs V) / (tstd (advantages batch_rtgs V) + epsDiv) - 1
        = -(epsDiv / (tstd (advantages batch_rtgs V) + epsDiv)) := by
      field_simp
    rw [hkey, abs_neg, abs_of_nonneg (div_nonneg epsDiv_pos.le hd.le)]
    have hstep : epsDiv / (tstd (advantages batch_rtgs V) + epsDiv)
        ≤ epsDiv / tstd (advantages batch_rtgs V) := by
      apply div_le_div_of_nonneg_left epsDiv_pos.le hs0
      linarith [epsDiv_pos]
    have hstep2 : epsDiv / tstd (advantages batch_rtgs V) ≤ 1 / 100000 := by
      rw [div_le_iff₀ hs0]
      have : (1 : ℝ) / 100000 * (1 / 100000) ≤ 1 / 100000 * tstd (advantages batch_rtgs V) :=
        mul_le_mul_of_nonneg_left h (by norm_num)
      unfold epsDiv
      linarith
    linarith

/-- Witness for C3 (amended) at rewards-to-go `[0, 2]`, values `[0, 0]`:
the pre-normalization sample std is `sqrt 2 ≥ 1e-5`. -/
theorem claim_C3_witness :
    ((1 : ℝ) / 100000 ≤ tstd (advantages [0, 2] [0, 0])) ∧
    (0 < tstd (advantages [0, 2] [0, 0]) + epsDiv ∧
     tmean (normalizedAdvantages [0, 2] [0, 0]) = 0 ∧
     |tstd (normalizedAdvantages [0, 2] [0, 0]) - 1| ≤ 1 / 100000) := by
  have hyp : (1 : ℝ) / 100000 ≤ tstd (advantages [0, 2] [0, 0]) := by
    rw [adv_ex, tstd_ex]
    have := sqrt_two_gt
    linarith
  exact ⟨hyp, (claim_C3 [0, 2] [0, 0]).1,
    ((claim_C3 [0, 2] [0, 0]).2 hyp).1, ((claim_C3 [0, 2] [0, 0]).2 hyp).2⟩

lemma dequeAppend_eq_drop {α : Type} (q : List α) (x : α) :
    dequeAppend MAX_MEMOMRY q x = (q ++ [x]).drop (q.length + 1 - MAX_MEMOMRY) := by
  unfold dequeAppend
  have hlen : (q ++ [x]).length = q.length + 1 := by simp
  by_cases h : MAX_MEMOMRY < (q ++ [x]).length
  · rw [if_pos h, hlen]
  · rw [if_neg h]
    rw [hlen] at h
    have hM : MAX_MEMOMRY = 100000 := rfl
    have h0 : q.length + 1 - MAX_MEMOMRY = 0 := by omega
    rw [h0, List.drop_zero]

set_option maxRecDepth 4000 in
lemma rememberAll_go {α : Type} :
    ∀ (xs : List α) (q : List α), q.length ≤ MAX_MEMOMRY →
      xs.foldl remember q = (q ++ xs).drop ((q ++ xs).length - MAX_MEMOMRY) := by
  intro xs
  induction xs with
  | nil =>
    intro q hq
    simp only [List.foldl_nil, List.append_nil]
    have : q.length - MAX_MEMOMRY = 0 := by omega
    rw [this, List.drop_zero]
  | cons x xs ih =>
    intro q hq
    have hM : MAX_MEMOMRY = 100000 := rfl
    rw [List.foldl_cons]
    have hstep : remember q x = (q ++ [x]).drop (q.length + 1 - MAX_MEMOMRY) :=
      dequeAppend_eq_drop q x
    have hlen2 : (remember q x).length = q.length + 1 - (q.length + 1 - MAX_MEMOMRY) := by
      rw [hstep]
      simp
    have hle : (remember q x).length ≤ MAX_MEMOMRY := by omega
    rw [ih (remember q x) hle, hstep]
    have hk1 : q.length + 1 - MAX_MEMOMRY ≤ (q ++ [x]).length := by
      simp
    have hsplit : ((q ++ [x]) ++ xs).drop (q.length + 1 - MAX_MEMOMRY)
        = (q ++ [x]).drop (q.length + 1 - MAX_MEMOMRY) ++ xs :=
      List.drop_append_of_le_length hk1
    rw [← hsplit, List.drop_drop]
    have happ : q ++ [x] ++ xs = q ++ x :: xs := by simp
    rw [happ]
    have hidx : ∀ (l : List α) (m n : Nat), m = n → l.drop m = l.drop n := by
      intro l m n hmn
      rw [hmn]
    apply hidx
    simp [List.length_drop]
    omega

lemma rememberAll_eq_drop {α : Type} (xs : List α) :
    rememberAll xs = xs.drop (xs.length - MAX_MEMOMRY) := by
  unfold rememberAll
  have := rememberAll_go xs ([] : List α) (by simp [MAX_MEMOMRY])
  simpa using this

/-- C9: replay memory never exceeds its capacity of 100000, and eviction is
strict FIFO: the retained contents are always exactly the most recent
`MAX_MEMOMRY` insertions in order; in particular after 100001 insertions the
first-inserted item is gone and the size is 100000. -/
theorem claim_C9 (α : Type) (xs : List α) (h : xs.length = 100001) :
    (∀ ys : List α, (rememberAll ys).length ≤ MAX_MEMOMRY) ∧
    (∀ ys : List α, rememberAll ys = ys.drop (ys.length - MAX_MEMOMRY)) ∧
    rememberAll xs = xs.drop 1 ∧
    (rememberAll xs).length = MAX_MEMOMRY := by
  have hgen : ∀ ys : List α, rememberAll ys = ys.drop (ys.length - MAX_MEMOMRY) :=
    fun ys => rememberAll_eq_drop ys
  have hxs : rememberAll xs = xs.drop 1 := by
    rw [hgen xs, h]
    norm_num [MAX_MEMOMRY]
  refine ⟨?_, hgen, hxs, ?_⟩
  · intro ys
    have hM : MAX_MEMOMRY = 100000 := rfl
    rw [hgen ys]
    simp
    omega
  · rw [hxs]
    simp [h, MAX_MEMOMRY]

/-- Witness for C9 with the 100001 distinct items `0, 1, ..., 100000`. -/
theorem claim_C9_witness :
    ((List.range 100001).length = 100001) ∧
    ((∀ ys : List Nat, (rememberAll ys).length ≤ MAX_MEMOMRY) ∧
     (∀ ys : List Nat, rememberAll ys = ys.drop (ys.length - MAX_MEMOMRY)) ∧
     rememberAll (List.range 100001) = (List.range 100001).drop 1 ∧
     (rememberAll (List.range 100001)).length = MAX_MEMOMRY) :=
  ⟨by simp, claim_C9 Nat (List.range 100001) (by simp)⟩

/-- C10: in every iteration of the DQN training loop, the move passed to
`game.update` and recorded in both replay memory and short-memory training is
the constant `pygame.K_RIGHT`, whatever move the agent's `get_action`
returned; the iteration's observable effects are independent of that returned
move. -/
theorem claim_C10 (S : Type) (state_old state_new : S) (agentMove otherMove : Nat)
    (update : Nat → ℚ × Bool × ℚ) :
    (trainIterTrace state_old agentMove update state_new).moveToUpdate = K_RIGHT ∧
    (trainIterTrace state_old agentMove update state_new).shortMemArgs
      = (state_old, K_RIGHT, (update K_RIGHT).1, state_new, (update K_RIGHT).2.1) ∧
    (trainIterTrace state_old agentMove update state_new).rememberedArgs
      = (state_old, K_RIGHT, (update K_RIGHT).1, state_new, (update K_RIGHT).2.1) ∧
    trainIterTrace state_old agentMove update state_new
      = trainIterTrace state_old otherMove update state_new := by
  refine ⟨rfl, rfl, rfl, rfl⟩
